import Mathlib

/-!
Verification of the audio/pitch-accent cache and search layer of the
AJT Japanese add-on, as a shallow embedding in Lean.

SQL tables are embedded as Lean lists of row structures, SQL queries as
list functions, and the Python control flow as pure functions; fallible
operations return `Except`/`Option`.  The embedding follows the Python
sources (`helpers/sqlite3_buddy.py`, `database/pitch_buddy.py`,
`database/version_buddy.py`, `audio.py`, `helpers/http_client.py`,
`audio_manager/forvo_client.py`).  SQLite behaviour that the queries rely
on (binary string collation, `SELECT DISTINCT ... ORDER BY` keeping the
first-scanned representative of each distinct projection and sorting by
the representative row) is embedded explicitly.
-/

/-! ### Generic helpers: byte-wise string order, stable insertion sort,
deduplication keeping the first occurrence of each key. -/

/-- Byte-wise (code-point-wise) "less or equal" on character lists, the
order SQLite's BINARY collation and Python tuple comparison give strings. -/
def charsLe : List Char → List Char → Bool
  | [], _ => true
  | _ :: _, [] => false
  | a :: as, b :: bs =>
    if a.toNat < b.toNat then true
    else if b.toNat < a.toNat then false
    else charsLe as bs

/-- Byte-wise "less or equal" on strings. -/
def strLe (a b : String) : Bool :=
  charsLe a.data b.data

/-- Lexicographic comparison of an (integer, string, string) sort key. -/
def keyLe : Int × String × String → Int × String × String → Bool
  | (i, s, t), (j, u, v) =>
    if i = j then
      if s = u then strLe t v else strLe s u
    else decide (i ≤ j)

/-- Insert an element into a list sorted by `le`, before the first element
it compares `le` to (the insertion step of a stable insertion sort). -/
def insertSorted {α : Type} (le : α → α → Bool) (a : α) : List α → List α
  | [] => [a]
  | b :: bs => if le a b then a :: b :: bs else b :: insertSorted le a bs

/-- Stable sort by the boolean comparator `le`; models Python's `sorted`
and SQL `ORDER BY`. -/
def sortBy {α : Type} (le : α → α → Bool) : List α → List α
  | [] => []
  | a :: as => insertSorted le a (sortBy le as)

/-- Keep each element whose key `k` has not been seen yet; `seen` is the
accumulated set of keys already emitted. -/
def dedupByFirstAux {α κ : Type} [DecidableEq κ] (k : α → κ) (seen : List κ) :
    List α → List α
  | [] => []
  | a :: rest =>
    if k a ∈ seen then dedupByFirstAux k seen rest
    else a :: dedupByFirstAux k (k a :: seen) rest

/-- Remove elements whose key `k` already occurred earlier in the list,
keeping the first occurrence; models `SELECT DISTINCT` over a scan and
spec-mandated "keep first occurrence" deduplication. -/
def dedupByFirst {α κ : Type} [DecidableEq κ] (k : α → κ) (l : List α) : List α :=
  dedupByFirstAux k [] l

/-! ### Pitch-accent table (`database/pitch_buddy.py`) -/

/-- One row of the `pitch_accents_formatted` table: `headword`,
`katakana_reading`, `html_markup` (the `html_notation` TEXT column),
`pitch_number` (TEXT), `frequency` (INTEGER), `source` (provider name). -/
structure AccDictEntry where
  headword : String
  katakana_reading : String
  html_markup : String
  pitch_number : String
  frequency : Int
  source : String
deriving DecidableEq, Repr

/-- The projection the query returns: the default `select_keys`
`(katakana_reading, html_notation, pitch_number)`. -/
def pitchProj (r : AccDictEntry) : String × String × String :=
  (r.katakana_reading, r.html_markup, r.pitch_number)

/-- Sort key of `ORDER BY frequency DESC, pitch_number ASC,
katakana_reading ASC` (frequency negated to express DESC). -/
def pitchKey (r : AccDictEntry) : Int × String × String :=
  (-r.frequency, r.pitch_number, r.katakana_reading)

/-- Row comparator realising the query's `ORDER BY` clause. -/
def pitchRowLe (a b : AccDictEntry) : Bool :=
  keyLe (pitchKey a) (pitchKey b)

/-- CTE `all_results`: rows whose headword OR katakana reading equals the
searched word. -/
def pitchAllResults (table : List AccDictEntry) (word : String) : List AccDictEntry :=
  table.filter fun r => r.headword = word || r.katakana_reading = word

/-- CTE `preferred_results`: the matching rows owned by the preferred
provider. -/
def pitchPreferredResults (table : List AccDictEntry) (word : String)
    (prefer_provider_name : String) : List AccDictEntry :=
  (pitchAllResults table word).filter fun r => r.source = prefer_provider_name

/-- Body of the query's inner SELECT (`preferred_results UNION ALL
all_results WHERE NOT EXISTS preferred_results`): the preferred provider's
matching rows if there are any, else all matching rows. -/
def pitchChosen (table : List AccDictEntry) (word : String)
    (prefer_provider_name : String) : List AccDictEntry :=
  let preferred := pitchPreferredResults table word prefer_provider_name
  if preferred.isEmpty then pitchAllResults table word else preferred

/-- The representative rows of `SELECT DISTINCT ... ORDER BY`: one row per
distinct projection (the first one scanned), sorted by the `ORDER BY` key
of the representative — the observed SQLite evaluation of the query. -/
def pitchSortedRows (table : List AccDictEntry) (word : String)
    (prefer_provider_name : String) : List AccDictEntry :=
  sortBy pitchRowLe (dedupByFirst pitchProj (pitchChosen table word prefer_provider_name))

/-- Embedding of `PitchSqlite3Buddy.search_pitch_accents` with the default
`select_keys`: distinct `(katakana_reading, html_notation, pitch_number)`
projections of the chosen rows, ordered by
`frequency DESC, pitch_number ASC, katakana_reading ASC`. -/
def search_pitch_accents (table : List AccDictEntry) (word : String)
    (prefer_provider_name : String) : List (String × String × String) :=
  (pitchSortedRows table word prefer_provider_name).map pitchProj

/-! ### Audio cache tables (`helpers/sqlite3_buddy.py`, `AudioSqlite3Buddy`) -/

/-- One row of the `meta` table. -/
structure MetaRow where
  source_name : String
  dictionary_name : String
  year : Int
  version : Int
  original_url : Option String
  media_dir : String
  media_dir_abs : Option String
deriving DecidableEq, Repr

/-- One row of the `headwords` table. -/
structure HeadwordRow where
  source_name : String
  headword : String
  file_name : String
deriving DecidableEq, Repr

/-- One row of the `files` table. -/
structure FileRow where
  source_name : String
  file_name : String
  kana_reading : String
  pitch_pattern : Option String
  pitch_number : Option String
deriving DecidableEq, Repr

/-- The three audio tables of the cache database. -/
structure AudioDb where
  meta : List MetaRow
  headwords : List HeadwordRow
  files : List FileRow
deriving DecidableEq, Repr

/-- Result unit of the headword queries (`BoundFile`). -/
structure BoundFile where
  headword : String
  file_name : String
  source_name : String
deriving DecidableEq, Repr

/-- Contents of the `meta` section of a source index document. -/
structure SourceMeta where
  name : String
  year : Int
  version : Int
  media_dir : String
  media_dir_abs : Option String
deriving DecidableEq, Repr

/-- Per-file phonetic attributes in the `files` section. -/
structure FileInfo where
  kana_reading : String
  pitch_pattern : Option String
  pitch_number : Option String
deriving DecidableEq, Repr

/-- Parsed source index document; a `none` field means the top-level key is
absent.  Modelled from the spec: the `SourceIndex` TypedDict lives in
`helpers/audio_json_schema.py`, which is not among the sources; per the
spec (section 6) its required top-level keys are `meta`, `headwords` and
`files`, in that order. -/
structure SourceIndex where
  meta : Option SourceMeta
  headwords : Option (List (String × List String))
  files : Option (List (String × FileInfo))
deriving DecidableEq, Repr

/-- The validation error raised by `raise_if_invalid_json`, carrying the
name of the missing required key. -/
structure InvalidSourceIndex where
  missing_key : String
deriving DecidableEq, Repr

/-- Embedding of `raise_if_invalid_json`: the first required top-level key
(in annotation order `meta`, `headwords`, `files`) absent from the
document, if any. -/
def raise_if_invalid_json (data : SourceIndex) : Option String :=
  if data.meta.isNone then some "meta"
  else if data.headwords.isNone then some "headwords"
  else if data.files.isNone then some "files"
  else none

/-- The `meta` row inserted by `insert_data` (`original_url` is inserted as
NULL). -/
def metaRowOf (source_name : String) (m : SourceMeta) : MetaRow :=
  ⟨source_name, m.name, m.year, m.version, none, m.media_dir, m.media_dir_abs⟩

/-- The `headwords` rows inserted by `insert_data`: one row per
`(headword, file_name)` pair of the `headwords` section. -/
def headwordRowsOf (source_name : String) (hw : List (String × List String)) :
    List HeadwordRow :=
  hw.flatMap fun p => p.2.map fun file_name => ⟨source_name, p.1, file_name⟩

/-- The `files` rows inserted by `insert_data`: one row per entry of the
`files` section. -/
def fileRowsOf (source_name : String) (fl : List (String × FileInfo)) : List FileRow :=
  fl.map fun p => ⟨source_name, p.1, p.2.kana_reading, p.2.pitch_pattern, p.2.pitch_number⟩

/-- Embedding of `AudioSqlite3Buddy.insert_data`: validate first
(`raise_if_invalid_json` runs before any INSERT, so an error leaves the
tables untouched), then insert the meta row, the headword rows and the
file rows, committing once at the end. -/
def insert_data (db : AudioDb) (source_name : String) (data : SourceIndex) :
    Except InvalidSourceIndex AudioDb :=
  match data.meta, data.headwords, data.files with
  | none, _, _ => .error ⟨"meta"⟩
  | some _, none, _ => .error ⟨"headwords"⟩
  | some _, some _, none => .error ⟨"files"⟩
  | some m, some hw, some fl =>
    .ok { meta := db.meta ++ [metaRowOf source_name m],
          headwords := db.headwords ++ headwordRowsOf source_name hw,
          files := db.files ++ fileRowsOf source_name fl }

/-- The audio tables named by the DELETE statements of `remove_data`. -/
inductive AudioTable where
  | meta
  | headwords
  | files
deriving DecidableEq, Repr

/-- The DELETE statements issued by `remove_data`, in the order of its
`queries` tuple in the source. -/
def removeDataQueries : List AudioTable :=
  [AudioTable.meta, AudioTable.headwords, AudioTable.files]

/-- Effect of one `DELETE FROM <table> WHERE source_name = ?` statement. -/
def deleteFromTable (db : AudioDb) (t : AudioTable) (source_name : String) : AudioDb :=
  match t with
  | .meta => { db with meta := db.meta.filter fun r => decide (r.source_name ≠ source_name) }
  | .headwords =>
    { db with headwords := db.headwords.filter fun r => decide (r.source_name ≠ source_name) }
  | .files => { db with files := db.files.filter fun r => decide (r.source_name ≠ source_name) }

/-- Embedding of `AudioSqlite3Buddy.remove_data`: execute the three DELETE
statements in the order of `removeDataQueries` inside one transaction (one
commit at the end), so only the final state is observable. -/
def remove_data (db : AudioDb) (source_name : String) : AudioDb :=
  removeDataQueries.foldl (fun d t => deleteFromTable d t source_name) db

/-- Embedding of `AudioSqlite3Buddy.search_files`: the headword rows whose
headword equals the query, as `BoundFile`s. -/
def search_files (db : AudioDb) (headword : String) : List BoundFile :=
  (db.headwords.filter fun r => r.headword = headword).map
    fun r => ⟨headword, r.file_name, r.source_name⟩

/-- Join of `files` with `meta` used by `distinct_file_count`: the
`(file_name, dictionary_name, original_url)` triples of files belonging to
the given sources. -/
def joinedFileKeys (db : AudioDb) (source_names : List String) :
    List (String × String × Option String) :=
  (db.files.filter fun f => decide (f.source_name ∈ source_names)).flatMap fun f =>
    (db.meta.filter fun m => m.source_name = f.source_name).map fun m =>
      (f.file_name, m.dictionary_name, m.original_url)

/-- Embedding of `AudioSqlite3Buddy.distinct_file_count`: 0 for an empty
source list, else the number of distinct
`(file_name, dictionary_name, original_url)` triples. -/
def distinct_file_count (db : AudioDb) (source_names : List String) : Nat :=
  if source_names.isEmpty then 0
  else (dedupByFirst id (joinedFileKeys db source_names)).length

/-- Embedding of `AudioSqlite3Buddy.distinct_headword_count`: 0 for an
empty source list, else the number of distinct headwords in the given
sources. -/
def distinct_headword_count (db : AudioDb) (source_names : List String) : Nat :=
  if source_names.isEmpty then 0
  else
    (dedupByFirst id
      (((db.headwords.filter fun r => decide (r.source_name ∈ source_names)).map
        fun r => r.headword))).length

/-- Embedding of `AudioSqlite3Buddy.get_cached_sources`: the
`(source_name, original_url)` of meta rows that have at least one headword
row and at least one file row. -/
def get_cached_sources (db : AudioDb) : List (String × Option String) :=
  (db.meta.filter fun m =>
      (db.headwords.any fun h => h.source_name = m.source_name) &&
      (db.files.any fun f => f.source_name = m.source_name)).map
    fun m => (m.source_name, m.original_url)

/-- Embedding of `AudioSqlite3Buddy.is_source_cached`: true iff all three
tables hold at least one row for the source. -/
def is_source_cached (db : AudioDb) (source_name : String) : Bool :=
  (db.meta.any fun m => m.source_name = source_name) &&
    (db.headwords.any fun h => h.source_name = source_name) &&
    (db.files.any fun f => f.source_name = source_name)

/-! ### Version table (`database/version_buddy.py`) -/

/-- One row of the `version` table. -/
structure VersionRow where
  schema_name : String
  number : Int
deriving DecidableEq, Repr

/-- Errors raised by `get_db_version`: the version-not-set error
(`Sqlite3BuddyVersionError`) and the `assert result[0] > 0` failure. -/
inductive VersionError where
  | versionNotSet
  | assertPositiveFailed
deriving DecidableEq, Repr

/-- Embedding of `VersionSqlite3Buddy.get_db_version`: raise if no row for
the schema name exists; assert the stored number is positive; return it. -/
def get_db_version (table : List VersionRow) (schema_name : String) :
    Except VersionError Int :=
  match table.find? fun r => decide (r.schema_name = schema_name) with
  | none => .error .versionNotSet
  | some r => if r.number > 0 then .ok r.number else .error .assertPositiveFailed

/-- Embedding of `VersionSqlite3Buddy.set_db_version`: INSERT with
`ON CONFLICT(schema_name) DO UPDATE` (upsert on the primary key). -/
def set_db_version (table : List VersionRow) (schema_name : String) (value : Int) :
    List VersionRow :=
  if table.any fun r => r.schema_name = schema_name then
    table.map fun r => if r.schema_name = schema_name then ⟨schema_name, value⟩ else r
  else table ++ [⟨schema_name, value⟩]

/-- The version table produced by a sequence of `set_db_version` calls
starting from the freshly created (empty) table. -/
def applyVersionSets (history : List (String × Int)) : List VersionRow :=
  history.foldl (fun t p => set_db_version t p.1 p.2) []

/-- The value of the most recent `set_db_version` call for a schema name
in a history of calls, if any. -/
def lastSetValue : List (String × Int) → String → Option Int
  | [], _ => none
  | p :: rest, s =>
    match lastSetValue rest s with
    | some v => some v
    | none => if p.1 = s then some p.2 else none

/-! ### Audio search (`audio.py`) -/

/-- The search result unit `FileUrlData` (`audio_manager/basic_types.py`),
with the dataclass defaults for `reading` and `pitch_number`. -/
structure FileUrlData where
  url : String
  desired_filename : String
  word : String
  source_name : String
  reading : String := ""
  pitch_number : String := "?"
deriving DecidableEq, Repr

/-- A token produced by the morphological analyzer
(`MecabParsedToken`, reduced to the fields `audio.py` uses); an empty
(falsy) `katakana_reading` is `none`. -/
structure MecabToken where
  headword : String
  katakana_reading : Option String
deriving DecidableEq, Repr

/-- External collaborators of `search_audio`, treated as black boxes: the
cache-backed per-source lookup `search_word`, the kana converters, HTML
stripping, furigana splitting (returning `(surface text, reading)` with an
empty reading when no separator is present), tokenization
(`iter_tokens`), the morphological analyzer, the inflection classifier and
the reading canonicalizer `literal_pronunciation`. -/
structure AudioSearchEnv where
  searchWord : String → List FileUrlData
  toHiragana : String → String
  toKatakana : String → String
  htmlToTextLine : String → String
  splitFurigana : String → String × String
  tokenize : String → List String
  mecabTranslate : String → List MecabToken
  isInflected : String → String → Bool
  literalPronunciation : String → String

/-- The three lookups of `_search_word_variants`, in execution order: the
surface text, its hiragana transliteration, its katakana transliteration. -/
def searchWordVariantsQueries (env : AudioSearchEnv) (src_text : String) : List String :=
  [src_text, env.toHiragana src_text, env.toKatakana src_text]

/-- Embedding of `AnkiAudioSourceManager._search_word_variants`: yield the
results of all three lookups, concatenated; no lookup short-circuits the
remaining ones. -/
def search_word_variants (env : AudioSearchEnv) (src_text : String) : List FileUrlData :=
  (searchWordVariantsQueries env src_text).flatMap env.searchWord

/-- Embedding of `iter_mecab_variants`: the headword, then (when the
katakana reading is non-empty) the katakana reading and its hiragana
conversion. -/
def iterMecabVariants (env : AudioSearchEnv) (t : MecabToken) : List String :=
  t.headword ::
    (match t.katakana_reading with
      | some k => [k, env.toHiragana k]
      | none => [])

/-- The first variant (in order) whose `_search_word_variants` lookup is
non-empty; later variants are skipped (`break` in
`_parse_and_search_audio`). -/
def firstNonEmptyResult (env : AudioSearchEnv) : List String → Option (List FileUrlData)
  | [] => none
  | v :: vs =>
    let files := search_word_variants env v
    if files.isEmpty then firstNonEmptyResult env vs else some files

/-- Lookup in an insertion-ordered dictionary embedded as an association
list; a missing key reads as `[]` (`collections.defaultdict(list)`). -/
def alistGet (hits : List (String × List FileUrlData)) (k : String) : List FileUrlData :=
  match hits.find? fun p => decide (p.1 = k) with
  | some p => p.2
  | none => []

/-- Assignment in an insertion-ordered dictionary: an existing key keeps
its position, a new key is appended at the end (Python dict semantics). -/
def alistSet (hits : List (String × List FileUrlData)) (k : String)
    (v : List FileUrlData) : List (String × List FileUrlData) :=
  if hits.any fun p => p.1 = k then
    hits.map fun p => if p.1 = k then (k, v) else p
  else hits ++ [(k, v)]

/-- `hits[k].extend(files)` on a `defaultdict(list)`. -/
def alistExtend (hits : List (String × List FileUrlData)) (k : String)
    (files : List FileUrlData) : List (String × List FileUrlData) :=
  alistSet hits k (alistGet hits k ++ files)

/-- `hits.update(other)`: set every key of `other` in order. -/
def alistUpdate (hits other : List (String × List FileUrlData)) :
    List (String × List FileUrlData) :=
  other.foldl (fun h p => alistSet h p.1 p.2) hits

/-- Embedding of `AnkiAudioSourceManager._parse_and_search_audio`: for each
analyzer token, extend `hits[token.headword]` with the results of the
first variant that yields any, skipping the remaining variants. -/
def parse_and_search_audio (env : AudioSearchEnv) (src_text : String) :
    List (String × List FileUrlData) :=
  (env.mecabTranslate src_text).foldl
    (fun hits parsed =>
      match firstNonEmptyResult env (iterMecabVariants env parsed) with
      | some files => alistExtend hits parsed.headword files
      | none => hits)
    []

/-- The deduplication key of the final hit list.  Modelled from the spec:
`ensure_unique_files` lives in `helpers/unique_files.py`, which is not
among the sources; per the spec (section 4.4 step 8) hits are
deduplicated by `(filename, source, reading, pitch)`. -/
def uniqueKey (hit : FileUrlData) : String × String × String × String :=
  (hit.desired_filename, hit.source_name, hit.reading, hit.pitch_number)

/-- Deduplication of the final hit list, keeping the first occurrence of
each `uniqueKey`.  Modelled from the spec (see `uniqueKey`). -/
def ensure_unique_files (hits : List FileUrlData) : List FileUrlData :=
  dedupByFirst uniqueKey hits

/-- The sort key of `sorted_files`:
`(literal_pronunciation(reading), pitch_number)` (constant first component
so the shared `keyLe` comparator applies). -/
def fileSortKey (env : AudioSearchEnv) (hit : FileUrlData) : Int × String × String :=
  (0, env.literalPronunciation hit.reading, hit.pitch_number)

/-- Hit comparator of `sorted_files`. -/
def fileLe (env : AudioSearchEnv) (a b : FileUrlData) : Bool :=
  keyLe (fileSortKey env a) (fileSortKey env b)

/-- Embedding of `sorted_files`: sort by
`(literal_pronunciation(reading), pitch_number)` ascending. -/
def sorted_files (env : AudioSearchEnv) (hits : List FileUrlData) : List FileUrlData :=
  sortBy (fileLe env) hits

/-- The per-word hit dictionary built by `search_audio` before
deduplication and sorting: the full-text pass, the reading filter, the
reading pass, and the token/morpheme pass, then inflection filtering and
first-source restriction. -/
def searchAudioHits (env : AudioSearchEnv) (src_text : String)
    (split_morphemes ignore_inflections stop_if_one_source_has_results : Bool) :
    List (String × List FileUrlData) :=
  let p := env.splitFurigana (env.htmlToTextLine src_text)
  let t := p.1
  let reading := p.2
  let hits0 : List (String × List FileUrlData) := [(t, search_word_variants env t)]
  let hits1 :=
    if ¬(alistGet hits0 t).isEmpty ∧ reading ≠ "" then
      alistSet hits0 t ((alistGet hits0 t).filter fun hit =>
        env.literalPronunciation hit.reading = env.literalPronunciation reading)
    else hits0
  let hits2 :=
    if (alistGet hits1 t).isEmpty ∧ reading ≠ "" then
      alistExtend hits1 t (search_word_variants env reading)
    else hits1
  let hits3 :=
    if (alistGet hits2 t).isEmpty then
      (dedupByFirst id (env.tokenize t)).foldl
        (fun h part =>
          let files := search_word_variants env part
          if ¬files.isEmpty then alistExtend h part files
          else if split_morphemes then alistUpdate h (parse_and_search_audio env part)
          else h)
        hits2
    else hits2
  let hits4 :=
    if ignore_inflections then
      hits3.map fun q => (q.1, q.2.filter fun hit => ¬ env.isInflected hit.word hit.reading)
    else hits3
  if stop_if_one_source_has_results then
    hits4.map fun q =>
      if 1 < q.2.length then
        (q.1,
          match q.2 with
          | [] => []
          | h0 :: _ => q.2.filter fun hit => hit.source_name = h0.source_name)
      else q
  else hits4

/-- The flattened hit list `itertools.chain(*hits.values())`. -/
def searchAudioFlat (env : AudioSearchEnv) (src_text : String)
    (split_morphemes ignore_inflections stop_if_one_source_has_results : Bool) :
    List FileUrlData :=
  (searchAudioHits env src_text split_morphemes ignore_inflections
      stop_if_one_source_has_results).flatMap Prod.snd

/-- Embedding of `AnkiAudioSourceManager.search_audio`: build the per-word
hit dictionary, flatten it, deduplicate keeping first occurrences and sort
for a deterministic order. -/
def search_audio (env : AudioSearchEnv) (src_text : String)
    (split_morphemes ignore_inflections stop_if_one_source_has_results : Bool) :
    List FileUrlData :=
  sorted_files env
    (ensure_unique_files
      (searchAudioFlat env src_text split_morphemes ignore_inflections
        stop_if_one_source_has_results))

/-! ### Single-request download path (`helpers/http_client.py`) -/

/-- Bound a value into `[min_val, max_val]`.  Modelled from the spec:
`ajt_common/utils.py` is not among the sources; the `clamp(min_val, val,
max_val)` helper bounds the timeout into `[2, 99]` and the retry count
into `[0, 99]` at its call sites. -/
def clamp (min_val val max_val : Int) : Int :=
  max min_val (min val max_val)

/-- Outcome of one `get_with_timeout` call: a `requests.Timeout`, another
transport error (`OSError`), or a response with a status code. -/
inductive AttemptOutcome where
  | timeout
  | oserror
  | response (status : Nat)
deriving DecidableEq, Repr

/-- The transport exceptions `download` can observe (`requests.Timeout` is
itself an `OSError`, so both are caught by `except OSError`). -/
inductive TransportExc where
  | timeout
  | oserror
deriving DecidableEq, Repr

/-- Result of `get_with_retry`: an uncaught exception propagates, or a
response object is returned (its status is not inspected there). -/
inductive RetryResult where
  | raised (e : TransportExc)
  | returned (status : Nat)
deriving DecidableEq, Repr

/-- The retry loop of `get_with_retry`: with fuel left, a timeout is caught
and the next attempt starts; any other exception propagates; a response
returns.  With no fuel left the final `get_with_timeout` call runs outside
the loop and its exceptions propagate.  `oracle i` is the outcome of the
i-th attempt; the second component counts attempts performed. -/
def getWithRetryAux (oracle : Nat → AttemptOutcome) (i : Nat) : Nat → RetryResult × Nat
  | 0 =>
    match oracle i with
    | .timeout => (.raised .timeout, i + 1)
    | .oserror => (.raised .oserror, i + 1)
    | .response s => (.returned s, i + 1)
  | fuel + 1 =>
    match oracle i with
    | .timeout => getWithRetryAux oracle (i + 1) fuel
    | .oserror => (.raised .oserror, i + 1)
    | .response s => (.returned s, i + 1)

/-- Embedding of `AjtHttpClient.get_with_retry`: loop
`clamp(0, attempts - 1, 99)` times catching only `requests.Timeout`, then
one final attempt. -/
def get_with_retry (oracle : Nat → AttemptOutcome) (attempts : Int) : RetryResult × Nat :=
  getWithRetryAux oracle 0 (clamp 0 (attempts - 1) 99).toNat

/-- The exception raised by `AudioManagerHttpClient.download`, carrying the
offending file reference and either the underlying transport exception or
the non-OK response. -/
structure AudioManagerException (φ : Type) where
  file : φ
  response : Option Nat
  exception : Option TransportExc
deriving DecidableEq, Repr

/-- Embedding of `AudioManagerHttpClient.download` for a file reference of
type `φ`: run `get_with_retry`; an `OSError` becomes an
`AudioManagerException` carrying the file and the exception; a response
with status other than `requests.codes.ok` (200) becomes an
`AudioManagerException` carrying the file and the response; otherwise the
body is streamed (the returned status stands in for the bytes).  The
second component counts attempts performed. -/
def download {φ : Type} (oracle : Nat → AttemptOutcome) (file : φ) (attempts : Int) :
    Except (AudioManagerException φ) Nat × Nat :=
  match get_with_retry oracle attempts with
  | (.raised e, n) => (.error ⟨file, none, some e⟩, n)
  | (.returned s, n) =>
    if s ≠ 200 then (.error ⟨file, some s, none⟩, n) else (.ok s, n)

/-! ### Forvo provider (`audio_manager/forvo_client.py`) -/

/-- A retry policy: which outcomes trigger an automatic retry, the backoff
factor, and the number of automatic retries budgeted. -/
structure RetryPolicy where
  retries_on_timeout : Bool
  retries_on_connection_error : Bool
  status_forcelist : List Nat
  backoff_factor : Nat
  retry_budget : Int
deriving DecidableEq, Repr

/-- A condition that may trigger an automatic retry of a request. -/
inductive RetryCondition where
  | timeout
  | connectionError
  | status (code : Nat)
deriving DecidableEq, Repr

/-- Whether a policy retries on a given condition. -/
def triggersRetry (p : RetryPolicy) : RetryCondition → Bool
  | .timeout => p.retries_on_timeout
  | .connectionError => p.retries_on_connection_error
  | .status code => p.status_forcelist.contains code

/-- Policy of the session built by `create_session`:
`urllib3.Retry(total=clamp(2, retry_attempts, 33), backoff_factor=1,
status_forcelist=[403, 429, 500, 502, 503, 504],
allowed_methods=[HEAD, GET, OPTIONS])` retries timeouts, connection
errors and the forcelisted statuses, with exponential backoff. -/
def forvoSessionPolicy (retry_attempts : Int) : RetryPolicy :=
  { retries_on_timeout := true
    retries_on_connection_error := true
    status_forcelist := [403, 429, 500, 502, 503, 504]
    backoff_factor := 1
    retry_budget := clamp 2 retry_attempts 33 }

/-- `ForvoClient.word` performs its GET through `self._session`
(`_http_get` with `is_search=False`), so word mode's retry policy is the
session's. -/
def forvoWordModePolicy (retry_attempts : Int) : RetryPolicy :=
  forvoSessionPolicy retry_attempts

/-- `ForvoClient.search` performs its GET through `self._session`
(`_http_get` with `is_search=True`), so search mode's retry policy is the
session's. -/
def forvoSearchModePolicy (retry_attempts : Int) : RetryPolicy :=
  forvoSessionPolicy retry_attempts

/-- Policy of `AjtHttpClient.get_with_retry`: only `requests.Timeout` is
caught and retried, `clamp(0, attempts - 1, 99)` times, with no backoff
and no status-based or connection-error retry. -/
def ajtRetryPolicy (attempts : Int) : RetryPolicy :=
  { retries_on_timeout := true
    retries_on_connection_error := false
    status_forcelist := []
    backoff_factor := 0
    retry_budget := clamp 0 (attempts - 1) 99 }

/-- Code points removed by Python `str.strip()` (Unicode whitespace). -/
def isPyWhitespace (c : Char) : Bool :=
  c.toNat ∈ [0x09, 0x0a, 0x0b, 0x0c, 0x0d, 0x1c, 0x1d, 0x1e, 0x1f, 0x20,
    0x85, 0xa0, 0x1680, 0x2000, 0x2001, 0x2002, 0x2003, 0x2004, 0x2005,
    0x2006, 0x2007, 0x2008, 0x2009, 0x200a, 0x2028, 0x2029, 0x202f, 0x205f,
    0x3000]

/-- Python `str.strip()`: remove leading and trailing whitespace. -/
def pyStrip (s : String) : String :=
  String.mk (((s.data.dropWhile isPyWhitespace).reverse.dropWhile isPyWhitespace).reverse)

/-- The Forvo page fetch-and-scrape pipelines (HTTP request plus HTML
parsing), treated as black boxes mapping the stripped word to the scraped
`FileUrlData` list. -/
structure ForvoEnv where
  wordPage : String → List FileUrlData
  searchPage : String → List FileUrlData

/-- Embedding of `ForvoClient.word`: strip the input; when the stripped
word is empty return `[]` before `_http_get` runs; otherwise one HTTP
request is performed and the scraped pronunciations are returned.  The
second component counts HTTP requests. -/
def forvo_word (env : ForvoEnv) (word : String) : List FileUrlData × Nat :=
  let w := pyStrip word
  if w = "" then ([], 0) else (env.wordPage w, 1)

/-- Embedding of `ForvoClient.search`, with the same empty-input guard as
`forvo_word`. -/
def forvo_search (env : ForvoEnv) (word : String) : List FileUrlData × Nat :=
  let w := pyStrip word
  if w = "" then ([], 0) else (env.searchPage w, 1)

/-- A hit of provider source A used to exhibit cross-source behaviour of
the final deduplication. -/
def hitSourceA : FileUrlData :=
  ⟨"urlA", "f.mp3", "w", "sourceA", "r", "0"⟩

/-- The same `(filename, reading, pitch)` triple listed by a second
provider source B. -/
def hitSourceB : FileUrlData :=
  ⟨"urlB", "f.mp3", "w", "sourceB", "r", "0"⟩

/-- A concrete search environment in which two sources list an identical
`(filename, reading, pitch)` triple for the word `"w"`. -/
def twoSourceEnv : AudioSearchEnv :=
  { searchWord := fun t => if t = "w" then [hitSourceA, hitSourceB] else []
    toHiragana := fun t => t
    toKatakana := fun t => t
    htmlToTextLine := fun t => t
    splitFurigana := fun t => (t, "")
    tokenize := fun _ => []
    mecabTranslate := fun _ => []
    isInflected := fun _ _ => false
    literalPronunciation := fun t => t }

/-! ### DEFS-END marker: all later definitions are inserted above this line. -/

/-! ### Lemmas about the string order -/

theorem charsLe_total : ∀ as bs : List Char, charsLe as bs = true ∨ charsLe bs as = true
  | [], _ => Or.inl rfl
  | _ :: _, [] => Or.inr rfl
  | a :: as, b :: bs => by
    by_cases h1 : a.toNat < b.toNat
    · left; simp [charsLe, h1]
    · by_cases h2 : b.toNat < a.toNat
      · right; simp [charsLe, h1, h2]
      · have := charsLe_total as bs
        simpa [charsLe, h1, h2] using this

theorem charsLe_trans : ∀ as bs cs : List Char,
    charsLe as bs = true → charsLe bs cs = true → charsLe as cs = true
  | [], _, _, _, _ => rfl
  | _ :: _, [], _, h, _ => by simp [charsLe] at h
  | _ :: _, _ :: _, [], _, h => by simp [charsLe] at h
  | a :: as, b :: bs, c :: cs, h1, h2 => by
    simp only [charsLe] at h1 h2 ⊢
    by_cases hab : a.toNat < b.toNat
    · by_cases hbc : b.toNat < c.toNat
      · rw [if_pos (by omega : a.toNat < c.toNat)]
      · by_cases hcb : c.toNat < b.toNat
        · rw [if_neg hbc, if_pos hcb] at h2; simp at h2
        · rw [if_pos (by omega : a.toNat < c.toNat)]
    · by_cases hba : b.toNat < a.toNat
      · rw [if_neg hab, if_pos hba] at h1; simp at h1
      · rw [if_neg hab, if_neg hba] at h1
        by_cases hbc : b.toNat < c.toNat
        · rw [if_pos (by omega : a.toNat < c.toNat)]
        · by_cases hcb : c.toNat < b.toNat
          · rw [if_neg hbc, if_pos hcb] at h2; simp at h2
          · rw [if_neg hbc, if_neg hcb] at h2
            rw [if_neg (by omega : ¬ a.toNat < c.toNat),
              if_neg (by omega : ¬ c.toNat < a.toNat)]
            exact charsLe_trans as bs cs h1 h2

theorem charsLe_antisymm : ∀ as bs : List Char,
    charsLe as bs = true → charsLe bs as = true → as = bs
  | [], [], _, _ => rfl
  | [], _ :: _, _, h => by simp [charsLe] at h
  | _ :: _, [], h, _ => by simp [charsLe] at h
  | a :: as, b :: bs, h1, h2 => by
    simp only [charsLe] at h1 h2
    by_cases hab : a.toNat < b.toNat
    · rw [if_neg (by omega : ¬ b.toNat < a.toNat), if_pos hab] at h2; simp at h2
    · by_cases hba : b.toNat < a.toNat
      · rw [if_neg hab, if_pos hba] at h1; simp at h1
      · rw [if_neg hab, if_neg hba] at h1
        rw [if_neg hba, if_neg hab] at h2
        have hchar : a = b := Char.ext (UInt32.ext (by omega : a.toNat = b.toNat))
        rw [hchar, charsLe_antisymm as bs h1 h2]

theorem strLe_total (a b : String) : strLe a b = true ∨ strLe b a = true :=
  charsLe_total a.data b.data

theorem strLe_trans {a b c : String} (h1 : strLe a b = true) (h2 : strLe b c = true) :
    strLe a c = true :=
  charsLe_trans a.data b.data c.data h1 h2

theorem strLe_antisymm {a b : String} (h1 : strLe a b = true) (h2 : strLe b a = true) :
    a = b := by
  cases a with
  | mk da =>
    cases b with
    | mk db => exact congrArg String.mk (charsLe_antisymm da db h1 h2)

theorem keyLe_total (x y : Int × String × String) : keyLe x y = true ∨ keyLe y x = true := by
  obtain ⟨i, s, t⟩ := x
  obtain ⟨j, u, v⟩ := y
  simp only [keyLe]
  by_cases hij : i = j
  · rw [if_pos hij, if_pos hij.symm]
    by_cases hsu : s = u
    · rw [if_pos hsu, if_pos hsu.symm]
      exact strLe_total t v
    · rw [if_neg hsu, if_neg (Ne.symm hsu)]
      exact strLe_total s u
  · rw [if_neg hij, if_neg (Ne.symm hij)]
    rcases Int.le_total i j with h | h
    · exact Or.inl (decide_eq_true h)
    · exact Or.inr (decide_eq_true h)

theorem keyLe_trans {x y z : Int × String × String}
    (h1 : keyLe x y = true) (h2 : keyLe y z = true) : keyLe x z = true := by
  obtain ⟨i, s, t⟩ := x
  obtain ⟨j, u, v⟩ := y
  obtain ⟨k, w, r⟩ := z
  simp only [keyLe] at h1 h2 ⊢
  by_cases hij : i = j
  · rw [if_pos hij] at h1
    by_cases hjk : j = k
    · rw [if_pos hjk] at h2
      rw [if_pos (hij.trans hjk)]
      by_cases hsu : s = u
      · rw [if_pos hsu] at h1
        by_cases huw : u = w
        · rw [if_pos huw] at h2
          rw [if_pos (hsu.trans huw)]
          exact strLe_trans h1 h2
        · rw [if_neg huw] at h2
          rw [if_neg (fun h => huw (hsu ▸ h)), hsu]
          exact h2
      · rw [if_neg hsu] at h1
        by_cases huw : u = w
        · rw [if_pos huw] at h2
          rw [if_neg (fun h => hsu (h.trans huw.symm)), ← huw]
          exact h1
        · rw [if_neg huw] at h2
          by_cases hsw : s = w
          · exact absurd (strLe_antisymm h1 (by rw [hsw]; exact h2)) hsu
          · rw [if_neg hsw]
            exact strLe_trans h1 h2
    · rw [if_neg hjk] at h2
      have hik : ¬ i = k := fun h => hjk (hij.symm.trans h)
      rw [if_neg hik]
      simp only [decide_eq_true_eq] at h2 ⊢
      omega
  · rw [if_neg hij] at h1
    simp only [decide_eq_true_eq] at h1
    by_cases hjk : j = k
    · have hik : ¬ i = k := fun h => hij (h.trans hjk.symm)
      rw [if_neg hik]
      simp only [decide_eq_true_eq]
      omega
    · rw [if_neg hjk] at h2
      simp only [decide_eq_true_eq] at h2
      by_cases hik : i = k
      · exact absurd (by omega : i = j) hij
      · rw [if_neg hik]
        simp only [decide_eq_true_eq]
        omega

/-! ### Lemmas about the sort -/

theorem insertSorted_perm {α : Type} (le : α → α → Bool) (a : α) :
    ∀ l : List α, (insertSorted le a l).Perm (a :: l)
  | [] => List.Perm.refl _
  | b :: bs => by
    by_cases h : le a b
    · simp [insertSorted, h]
    · simp only [insertSorted, h, Bool.false_eq_true, if_false]
      exact ((insertSorted_perm le a bs).cons b).trans (List.Perm.swap a b bs)

theorem sortBy_perm {α : Type} (le : α → α → Bool) :
    ∀ l : List α, (sortBy le l).Perm l
  | [] => List.Perm.refl _
  | a :: as =>
    (insertSorted_perm le a (sortBy le as)).trans ((sortBy_perm le as).cons a)

theorem mem_sortBy {α : Type} {le : α → α → Bool} {x : α} {l : List α} :
    x ∈ sortBy le l ↔ x ∈ l :=
  (sortBy_perm le l).mem_iff

theorem mem_insertSorted {α : Type} {le : α → α → Bool} {x a : α} {l : List α} :
    x ∈ insertSorted le a l ↔ x = a ∨ x ∈ l := by
  rw [(insertSorted_perm le a l).mem_iff]
  simp

theorem insertSorted_pairwise {α : Type} {le : α → α → Bool}
    (total : ∀ x y, le x y = true ∨ le y x = true)
    (htrans : ∀ x y z, le x y = true → le y z = true → le x z = true)
    (a : α) : ∀ l : List α, l.Pairwise (fun x y => le x y = true) →
      (insertSorted le a l).Pairwise (fun x y => le x y = true)
  | [], _ => by simp [insertSorted]
  | b :: bs, hp => by
    rcases List.pairwise_cons.mp hp with ⟨hb, hbs⟩
    by_cases h : le a b
    · simp only [insertSorted, h, if_true]
      refine List.pairwise_cons.mpr ⟨?_, hp⟩
      intro y hy
      rcases List.mem_cons.mp hy with rfl | hy
      · exact h
      · exact htrans a b y h (hb y hy)
    · simp only [insertSorted, h, Bool.false_eq_true, if_false]
      refine List.pairwise_cons.mpr ⟨?_, insertSorted_pairwise total htrans a bs hbs⟩
      intro y hy
      rcases mem_insertSorted.mp hy with rfl | hy
      · rcases total y b with hyb | hby
        · exact absurd hyb h
        · exact hby
      · exact hb y hy

theorem sortBy_sorted {α : Type} {le : α → α → Bool}
    (total : ∀ x y, le x y = true ∨ le y x = true)
    (htrans : ∀ x y z, le x y = true → le y z = true → le x z = true) :
    ∀ l : List α, (sortBy le l).Pairwise (fun x y => le x y = true)
  | [] => List.Pairwise.nil
  | a :: as =>
    insertSorted_pairwise total htrans a (sortBy le as) (sortBy_sorted total htrans as)

/-! ### Lemmas about deduplication -/

theorem dedupByFirstAux_sublist {α κ : Type} [DecidableEq κ] (k : α → κ) :
    ∀ (l : List α) (seen : List κ), (dedupByFirstAux k seen l).Sublist l
  | [], _ => by simp [dedupByFirstAux]
  | a :: rest, seen => by
    by_cases h : k a ∈ seen
    · simp only [dedupByFirstAux, if_pos h]
      exact (dedupByFirstAux_sublist k rest seen).cons a
    · simp only [dedupByFirstAux, if_neg h]
      exact (dedupByFirstAux_sublist k rest (k a :: seen)).cons₂ a

theorem dedupByFirst_sublist {α κ : Type} [DecidableEq κ] (k : α → κ) (l : List α) :
    (dedupByFirst k l).Sublist l :=
  dedupByFirstAux_sublist k l []

theorem dedupByFirstAux_notin_seen {α κ : Type} [DecidableEq κ] (k : α → κ) :
    ∀ (l : List α) (seen : List κ) (x : α),
      x ∈ dedupByFirstAux k seen l → k x ∉ seen
  | [], _, _, hx => by simp [dedupByFirstAux] at hx
  | a :: rest, seen, x, hx => by
    by_cases h : k a ∈ seen
    · simp only [dedupByFirstAux, if_pos h] at hx
      exact dedupByFirstAux_notin_seen k rest seen x hx
    · simp only [dedupByFirstAux, if_neg h] at hx
      rcases List.mem_cons.mp hx with rfl | hx
      · exact h
      · have := dedupByFirstAux_notin_seen k rest (k a :: seen) x hx
        exact fun hm => this (List.mem_cons_of_mem _ hm)

theorem dedupByFirstAux_pairwise {α κ : Type} [DecidableEq κ] (k : α → κ) :
    ∀ (l : List α) (seen : List κ),
      (dedupByFirstAux k seen l).Pairwise (fun x y => k x ≠ k y)
  | [], _ => by simp [dedupByFirstAux]
  | a :: rest, seen => by
    by_cases h : k a ∈ seen
    · simp only [dedupByFirstAux, if_pos h]
      exact dedupByFirstAux_pairwise k rest seen
    · simp only [dedupByFirstAux, if_neg h]
      refine List.pairwise_cons.mpr ⟨?_, dedupByFirstAux_pairwise k rest (k a :: seen)⟩
      intro y hy
      have := dedupByFirstAux_notin_seen k rest (k a :: seen) y hy
      exact fun he => this (by rw [← he]; exact List.mem_cons_self _ _)

theorem dedupByFirst_pairwise {α κ : Type} [DecidableEq κ] (k : α → κ) (l : List α) :
    (dedupByFirst k l).Pairwise (fun x y => k x ≠ k y) :=
  dedupByFirstAux_pairwise k l []

theorem dedupByFirstAux_covers {α κ : Type} [DecidableEq κ] (k : α → κ) :
    ∀ (l : List α) (seen : List κ) (x : α), x ∈ l → k x ∉ seen →
      ∃ y ∈ dedupByFirstAux k seen l, k y = k x
  | [], _, _, hx, _ => by simp at hx
  | a :: rest, seen, x, hx, hs => by
    by_cases h : k a ∈ seen
    · simp only [dedupByFirstAux, if_pos h]
      rcases List.mem_cons.mp hx with rfl | hx
      · exact absurd h hs
      · exact dedupByFirstAux_covers k rest seen x hx hs
    · simp only [dedupByFirstAux, if_neg h]
      rcases List.mem_cons.mp hx with rfl | hx
      · exact ⟨x, List.mem_cons_self _ _, rfl⟩
      · by_cases hk : k x = k a
        · exact ⟨a, List.mem_cons_self _ _, hk.symm⟩
        · have hs2 : k x ∉ k a :: seen := by
            intro hm
            rcases List.mem_cons.mp hm with he | hm
            · exact hk he
            · exact hs hm
          rcases dedupByFirstAux_covers k rest (k a :: seen) x hx hs2 with ⟨y, hy, hky⟩
          exact ⟨y, List.mem_cons_of_mem a hy, hky⟩

theorem dedupByFirst_covers {α κ : Type} [DecidableEq κ] (k : α → κ) (l : List α) :
    ∀ x ∈ l, ∃ y ∈ dedupByFirst k l, k y = k x :=
  fun x hx => dedupByFirstAux_covers k l [] x hx (by simp)

theorem dedupByFirstAux_first {α κ : Type} [DecidableEq κ] (k : α → κ) :
    ∀ (l : List α) (seen : List κ) (x : α), x ∈ dedupByFirstAux k seen l →
      l.find? (fun y => decide (k y = k x)) = some x
  | [], _, _, hx => by simp [dedupByFirstAux] at hx
  | a :: rest, seen, x, hx => by
    by_cases h : k a ∈ seen
    · simp only [dedupByFirstAux, if_pos h] at hx
      have hxs := dedupByFirstAux_notin_seen k rest seen x hx
      have hne : ¬ (k a = k x) := fun he => hxs (he ▸ h)
      rw [List.find?_cons_of_neg _ (by simpa using hne)]
      exact dedupByFirstAux_first k rest seen x hx
    · simp only [dedupByFirstAux, if_neg h] at hx
      rcases List.mem_cons.mp hx with rfl | hx
      · exact List.find?_cons_of_pos _ (by simp)
      · have hxs := dedupByFirstAux_notin_seen k rest (k a :: seen) x hx
        have hne : ¬ (k a = k x) := by
          intro he
          exact hxs (by rw [← he]; exact List.mem_cons_self _ _)
        rw [List.find?_cons_of_neg _ (by simpa using hne)]
        exact dedupByFirstAux_first k rest (k a :: seen) x hx

theorem dedupByFirst_first {α κ : Type} [DecidableEq κ] (k : α → κ) (l : List α) :
    ∀ x ∈ dedupByFirst k l, l.find? (fun y => decide (k y = k x)) = some x :=
  fun x hx => dedupByFirstAux_first k l [] x hx

/-- C1: when the preferred provider has at least one row matching the word
by headword or katakana reading, `search_pitch_accents` returns exactly the
(distinct projections of the) preferred provider's matching rows; otherwise
it returns the (distinct projections of the) matching rows of every
provider; in both cases the output is the projection of representative
rows sorted by frequency descending, then pitch number ascending, then
katakana reading ascending. -/
theorem search_pitch_accents_contract (table : List AccDictEntry) (word provider : String) :
    (pitchPreferredResults table word provider ≠ [] →
      ((∀ t ∈ search_pitch_accents table word provider,
          ∃ r ∈ pitchPreferredResults table word provider, pitchProj r = t) ∧
        (∀ r ∈ pitchPreferredResults table word provider,
          pitchProj r ∈ search_pitch_accents table word provider))) ∧
    (pitchPreferredResults table word provider = [] →
      ((∀ t ∈ search_pitch_accents table word provider,
          ∃ r ∈ pitchAllResults table word, pitchProj r = t) ∧
        (∀ r ∈ pitchAllResults table word,
          pitchProj r ∈ search_pitch_accents table word provider))) ∧
    (pitchSortedRows table word provider).Pairwise (fun a b => pitchRowLe a b = true) ∧
    search_pitch_accents table word provider =
      (pitchSortedRows table word provider).map pitchProj := by
  have tot : ∀ x y : AccDictEntry, pitchRowLe x y = true ∨ pitchRowLe y x = true :=
    fun x y => keyLe_total (pitchKey x) (pitchKey y)
  have tr : ∀ x y z : AccDictEntry,
      pitchRowLe x y = true → pitchRowLe y z = true → pitchRowLe x z = true :=
    fun _ _ _ h1 h2 => keyLe_trans h1 h2
  have memsearch : ∀ t, t ∈ search_pitch_accents table word provider ↔
      ∃ y ∈ dedupByFirst pitchProj (pitchChosen table word provider), pitchProj y = t := by
    intro t
    unfold search_pitch_accents pitchSortedRows
    constructor
    · intro ht
      rcases List.mem_map.mp ht with ⟨y, hy, hyt⟩
      exact ⟨y, mem_sortBy.mp hy, hyt⟩
    · intro ⟨y, hy, hyt⟩
      exact List.mem_map.mpr ⟨y, mem_sortBy.mpr hy, hyt⟩
  have fromchosen : ∀ t ∈ search_pitch_accents table word provider,
      ∃ r ∈ pitchChosen table word provider, pitchProj r = t := by
    intro t ht
    rcases (memsearch t).mp ht with ⟨y, hy, hyt⟩
    exact ⟨y, (dedupByFirst_sublist pitchProj _).mem hy, hyt⟩
  have tochosen : ∀ r ∈ pitchChosen table word provider,
      pitchProj r ∈ search_pitch_accents table word provider := by
    intro r hr
    rcases dedupByFirst_covers pitchProj _ r hr with ⟨y, hy, hky⟩
    exact (memsearch _).mpr ⟨y, hy, hky⟩
  refine ⟨?_, ?_, ?_, rfl⟩
  · intro h
    have hch : pitchChosen table word provider = pitchPreferredResults table word provider := by
      unfold pitchChosen
      rw [if_neg (by simpa [List.isEmpty_iff] using h)]
    rw [hch] at fromchosen tochosen
    exact ⟨fromchosen, tochosen⟩
  · intro h
    have hch : pitchChosen table word provider = pitchAllResults table word := by
      unfold pitchChosen
      rw [if_pos (by simpa [List.isEmpty_iff] using h)]
    rw [hch] at fromchosen tochosen
    exact ⟨fromchosen, tochosen⟩
  · exact sortBy_sorted tot tr _

/-- Witness for C1 at a concrete table holding rows from two providers. -/
theorem search_pitch_accents_contract_witness :
    pitchPreferredResults
        [⟨"boku", "BOKU", "n0", "0", 100, "bundled"⟩,
          ⟨"boku", "BOKU", "n1", "1", 50, "user"⟩] "boku" "user" ≠ [] ∧
      (∀ r ∈ pitchPreferredResults
        [⟨"boku", "BOKU", "n0", "0", 100, "bundled"⟩,
          ⟨"boku", "BOKU", "n1", "1", 50, "user"⟩] "boku" "user",
        pitchProj r ∈ search_pitch_accents
          [⟨"boku", "BOKU", "n0", "0", 100, "bundled"⟩,
            ⟨"boku", "BOKU", "n1", "1", 50, "user"⟩] "boku" "user") :=
  ⟨by decide,
    ((search_pitch_accents_contract
      [⟨"boku", "BOKU", "n0", "0", 100, "bundled"⟩,
        ⟨"boku", "BOKU", "n1", "1", 50, "user"⟩] "boku" "user").1 (by decide)).2⟩

theorem filter_of_filter_ne {α : Type} (name : α → String) (s : String) (p : α → Bool)
    (himp : ∀ a, p a = true → name a ≠ s) :
    ∀ l : List α, ((l.filter fun r => decide (name r ≠ s)).filter p) = l.filter p
  | [] => rfl
  | a :: l => by
    by_cases hn : name a = s
    · rw [List.filter_cons_of_neg (by simpa using hn)]
      rw [List.filter_cons_of_neg (by
        intro hp
        exact himp a hp hn)]
      exact filter_of_filter_ne name s p himp l
    · rw [List.filter_cons_of_pos (by simpa using hn)]
      by_cases hp : p a
      · rw [List.filter_cons_of_pos hp, List.filter_cons_of_pos hp]
        rw [filter_of_filter_ne name s p himp l]
      · rw [List.filter_cons_of_neg hp, List.filter_cons_of_neg hp]
        exact filter_of_filter_ne name s p himp l

/-- C3: if the source index document is missing any of the required
top-level keys (in annotation order `meta`, `headwords`, `files`),
`insert_data` raises a validation error naming the (first) missing key —
validation runs before any INSERT, so the pure embedding returns no new
state and the cache tables are unchanged; if all required keys are
present, no validation error is raised and the meta row, headword rows and
file rows are inserted in one transaction. -/
theorem insert_data_validation (db : AudioDb) (s : String) (doc : SourceIndex) :
    (doc.meta = none → insert_data db s doc = .error ⟨"meta"⟩) ∧
    (doc.meta ≠ none → doc.headwords = none →
      insert_data db s doc = .error ⟨"headwords"⟩) ∧
    (doc.meta ≠ none → doc.headwords ≠ none → doc.files = none →
      insert_data db s doc = .error ⟨"files"⟩) ∧
    (∀ m hw fl, doc.meta = some m → doc.headwords = some hw → doc.files = some fl →
      insert_data db s doc = .ok
        { meta := db.meta ++ [metaRowOf s m],
          headwords := db.headwords ++ headwordRowsOf s hw,
          files := db.files ++ fileRowsOf s fl }) ∧
    (∀ e, insert_data db s doc = .error e →
      raise_if_invalid_json doc = some e.missing_key) := by
  obtain ⟨dm, dh, df⟩ := doc
  cases dm <;> cases dh <;> cases df <;>
    simp [insert_data, raise_if_invalid_json]

/-- Witness for C3: a document missing `headwords` is rejected naming
that key, and a complete document is ingested as one new row per table. -/
theorem insert_data_validation_witness :
    insert_data ⟨[], [], []⟩ "src"
        ⟨some ⟨"dict", 2016, 1, "media", none⟩, none, some []⟩ =
      .error ⟨"headwords"⟩ ∧
    insert_data ⟨[], [], []⟩ "src"
        ⟨some ⟨"dict", 2016, 1, "media", none⟩, some [("hw", ["f1"])],
          some [("f1", ⟨"read", none, none⟩)]⟩ =
      .ok ⟨[⟨"src", "dict", 2016, 1, none, "media", none⟩],
        [⟨"src", "hw", "f1"⟩], [⟨"src", "f1", "read", none, none⟩]⟩ :=
  ⟨(insert_data_validation ⟨[], [], []⟩ "src"
      ⟨some ⟨"dict", 2016, 1, "media", none⟩, none, some []⟩).2.1 (by simp) rfl,
    by
      have := (insert_data_validation ⟨[], [], []⟩ "src"
        ⟨some ⟨"dict", 2016, 1, "media", none⟩, some [("hw", ["f1"])],
          some [("f1", ⟨"read", none, none⟩)]⟩).2.2.2.1 _ _ _ rfl rfl rfl
      simpa [metaRowOf, headwordRowsOf, fileRowsOf] using this⟩

/-- C4: after `remove_data(s)` on a cached source `s`,
`distinct_file_count([s])` and `distinct_headword_count([s])` are 0,
`get_cached_sources()` no longer lists `s`, and the rows of every other
source name are unchanged in all three tables. -/
theorem remove_data_evicts (db : AudioDb) (s : String)
    (h : is_source_cached db s = true) :
    distinct_file_count (remove_data db s) [s] = 0 ∧
    distinct_headword_count (remove_data db s) [s] = 0 ∧
    (∀ p ∈ get_cached_sources (remove_data db s), p.1 ≠ s) ∧
    ∀ t, t ≠ s →
      (remove_data db s).meta.filter (fun r => decide (r.source_name = t)) =
          db.meta.filter (fun r => decide (r.source_name = t)) ∧
        (remove_data db s).headwords.filter (fun r => decide (r.source_name = t)) =
          db.headwords.filter (fun r => decide (r.source_name = t)) ∧
        (remove_data db s).files.filter (fun r => decide (r.source_name = t)) =
          db.files.filter (fun r => decide (r.source_name = t)) := by
  have hrm : remove_data db s =
      { meta := db.meta.filter fun r => decide (r.source_name ≠ s),
        headwords := db.headwords.filter fun r => decide (r.source_name ≠ s),
        files := db.files.filter fun r => decide (r.source_name ≠ s) } := rfl
  refine ⟨?_, ?_, ?_, ?_⟩
  · have hnil : (remove_data db s).files.filter
        (fun f => decide (f.source_name ∈ [s])) = [] := by
      rw [hrm]
      simp only [List.filter_filter]
      rw [List.filter_eq_nil_iff]
      intro a _
      simp
    simp only [distinct_file_count, joinedFileKeys, hnil]
    rfl
  · have hnil : (remove_data db s).headwords.filter
        (fun r => decide (r.source_name ∈ [s])) = [] := by
      rw [hrm]
      simp only [List.filter_filter]
      rw [List.filter_eq_nil_iff]
      intro a _
      simp
    simp only [distinct_headword_count, hnil]
    rfl
  · intro p hp
    simp only [get_cached_sources] at hp
    rcases List.mem_map.mp hp with ⟨m, hm, hpm⟩
    have hmem : m ∈ (remove_data db s).meta := List.mem_of_mem_filter hm
    rw [hrm] at hmem
    have := (List.mem_filter.mp hmem).2
    simp only [decide_eq_true_eq] at this
    rw [← hpm]
    exact this
  · intro t ht
    rw [hrm]
    refine ⟨?_, ?_, ?_⟩ <;>
      exact filter_of_filter_ne _ s _ (by
        intro a ha
        simp only [decide_eq_true_eq] at ha
        rw [ha]
        exact ht) _

/-- Witness for C4 at a one-source cache. -/
theorem remove_data_evicts_witness :
    is_source_cached
        ⟨[⟨"A", "dict", 2016, 1, none, "m", none⟩],
          [⟨"A", "hw", "f"⟩], [⟨"A", "f", "r", none, none⟩]⟩ "A" = true ∧
      distinct_file_count
        (remove_data
          ⟨[⟨"A", "dict", 2016, 1, none, "m", none⟩],
            [⟨"A", "hw", "f"⟩], [⟨"A", "f", "r", none, none⟩]⟩ "A") ["A"] = 0 :=
  ⟨by decide,
    (remove_data_evicts
      ⟨[⟨"A", "dict", 2016, 1, none, "m", none⟩],
        [⟨"A", "hw", "f"⟩], [⟨"A", "f", "r", none, none⟩]⟩ "A" (by decide)).1⟩

/-- Counterexample to C7 as stated: `remove_data` does not delete
headword rows first — its `queries` tuple deletes from `meta` first, then
`headwords`, then `files`. -/
theorem remove_data_order_counterexample :
    removeDataQueries ≠ [AudioTable.headwords, AudioTable.files, AudioTable.meta] := by
  decide

/-- C7 amended: eviction deletes the source's meta row first, then its
headword rows, then its file rows — in that order — and all three
deletions happen in the same transaction (single commit), so only the
final state, with all three row groups removed, is observable. -/
theorem remove_data_order_and_atomicity (db : AudioDb) (s : String) :
    removeDataQueries = [AudioTable.meta, AudioTable.headwords, AudioTable.files] ∧
    remove_data db s =
      deleteFromTable (deleteFromTable (deleteFromTable db .meta s) .headwords s) .files s ∧
    remove_data db s =
      { meta := db.meta.filter fun r => decide (r.source_name ≠ s),
        headwords := db.headwords.filter fun r => decide (r.source_name ≠ s),
        files := db.files.filter fun r => decide (r.source_name ≠ s) } :=
  ⟨rfl, rfl, rfl⟩

theorem find?_map_upsert_ne (q1 : String) (q2 : Int) (s : String) (hne : q1 ≠ s) :
    ∀ t : List VersionRow,
      ((t.map fun r => if r.schema_name = q1 then ⟨q1, q2⟩ else r).find?
          fun r => decide (r.schema_name = s)) =
        t.find? fun r => decide (r.schema_name = s)
  | [] => rfl
  | r :: t => by
    by_cases hr : r.schema_name = q1
    · simp only [List.map_cons, if_pos hr]
      rw [List.find?_cons_of_neg _ (by simpa using hne)]
      rw [List.find?_cons_of_neg _ (by simp [hr, hne])]
      exact find?_map_upsert_ne q1 q2 s hne t
    · simp only [List.map_cons, if_neg hr]
      by_cases hs : r.schema_name = s
      · rw [List.find?_cons_of_pos _ (by simpa using hs),
          List.find?_cons_of_pos _ (by simpa using hs)]
      · rw [List.find?_cons_of_neg _ (by simpa using hs),
          List.find?_cons_of_neg _ (by simpa using hs)]
        exact find?_map_upsert_ne q1 q2 s hne t

theorem find?_map_upsert_eq (q1 : String) (q2 : Int) :
    ∀ t : List VersionRow, (t.any fun r => r.schema_name = q1) = true →
      ((t.map fun r => if r.schema_name = q1 then ⟨q1, q2⟩ else r).find?
          fun r => decide (r.schema_name = q1)) =
        some ⟨q1, q2⟩
  | [], h => by simp at h
  | r :: t, h => by
    by_cases hr : r.schema_name = q1
    · simp only [List.map_cons, if_pos hr]
      rw [List.find?_cons_of_pos _ (by simp)]
    · simp only [List.map_cons, if_neg hr]
      rw [List.find?_cons_of_neg _ (by simpa using hr)]
      have ht : (t.any fun r => r.schema_name = q1) = true := by
        simp only [List.any_cons] at h
        rcases Bool.or_eq_true_iff.mp h with h1 | h2
        · exact absurd (by simpa using h1) hr
        · exact h2
      exact find?_map_upsert_eq q1 q2 t ht

theorem find?_set_db_version (t : List VersionRow) (q1 : String) (q2 : Int) (s : String) :
    ((set_db_version t q1 q2).find? fun r => decide (r.schema_name = s)) =
      if q1 = s then some ⟨s, q2⟩
      else t.find? fun r => decide (r.schema_name = s) := by
  by_cases hany : (t.any fun r => r.schema_name = q1) = true
  · rw [set_db_version, if_pos hany]
    by_cases hq : q1 = s
    · subst hq
      rw [if_pos rfl]
      exact find?_map_upsert_eq q1 q2 t hany
    · rw [if_neg hq]
      exact find?_map_upsert_ne q1 q2 s hq t
  · rw [set_db_version, if_neg hany]
    rw [List.find?_append]
    by_cases hq : q1 = s
    · subst hq
      have hfalse : (t.any fun r => r.schema_name = q1) = false := by
        simpa using hany
      have hnone : (t.find? fun r => decide (r.schema_name = q1)) = none := by
        rw [List.find?_eq_none]
        intro x hx
        have := List.any_eq_false.mp hfalse x hx
        simpa using this
      rw [hnone, if_pos rfl]
      simp [List.find?]
    · rw [if_neg hq]
      have : (List.find? (fun r => decide (r.schema_name = s))
          ([⟨q1, q2⟩] : List VersionRow)) = none := by
        simp [List.find?, hq]
      rw [this, Option.or_none]

theorem findVersion_foldl (s : String) :
    ∀ (hist : List (String × Int)) (t : List VersionRow),
      ((hist.foldl (fun tb q => set_db_version tb q.1 q.2) t).find?
          fun r => decide (r.schema_name = s)) =
        (match lastSetValue hist s with
          | some v => some ⟨s, v⟩
          | none => t.find? fun r => decide (r.schema_name = s))
  | [], _ => rfl
  | q :: rest, t => by
    simp only [List.foldl_cons]
    rw [findVersion_foldl s rest (set_db_version t q.1 q.2)]
    simp only [lastSetValue]
    cases hlv : lastSetValue rest s
    · rw [find?_set_db_version]
      by_cases hq : q.1 = s
      · simp [hq]
      · simp [hq]
    · simp

theorem lastSetValue_eq_none : ∀ (hist : List (String × Int)) (s : String),
    lastSetValue hist s = none ↔ ∀ p ∈ hist, p.1 ≠ s
  | [], s => by simp [lastSetValue]
  | p :: rest, s => by
    simp only [lastSetValue]
    cases hlv : lastSetValue rest s with
    | none =>
      show (if p.1 = s then some p.2 else none) = none ↔ ∀ q ∈ p :: rest, q.1 ≠ s
      by_cases hp : p.1 = s
      · rw [if_pos hp]
        constructor
        · intro h; exact absurd h (by simp)
        · intro h
          exact absurd hp (h p (List.mem_cons_self _ _))
      · rw [if_neg hp]
        constructor
        · intro _ q hq
          rcases List.mem_cons.mp hq with rfl | hq
          · exact hp
          · exact ((lastSetValue_eq_none rest s).mp hlv) q hq
        · intro _; rfl
    | some w =>
      show some w = none ↔ ∀ q ∈ p :: rest, q.1 ≠ s
      constructor
      · intro h; exact absurd h (by simp)
      · intro h
        have hnone : lastSetValue rest s = none :=
          (lastSetValue_eq_none rest s).mpr fun q hq => h q (List.mem_cons_of_mem p hq)
        rw [hnone] at hlv
        exact absurd hlv (by simp)

theorem lastSetValue_mem : ∀ (hist : List (String × Int)) (s : String) (v : Int),
    lastSetValue hist s = some v → (s, v) ∈ hist
  | [], s, v, h => by simp [lastSetValue] at h
  | p :: rest, s, v, h => by
    simp only [lastSetValue] at h
    cases hlv : lastSetValue rest s with
    | some w =>
      rw [hlv] at h
      have hv : w = v := by simpa using h
      exact List.mem_cons_of_mem p (lastSetValue_mem rest s v (hv ▸ hlv))
    | none =>
      rw [hlv] at h
      by_cases hp : p.1 = s
      · rw [if_pos hp] at h
        have hv : p.2 = v := by simpa using h
        have hpv : p = (s, v) := by
          rw [← hp, ← hv]
        rw [hpv]
        exact List.mem_cons_self _ _
      · rw [if_neg hp] at h
        exact absurd h (by simp)

/-- Counterexample to C9 as stated: after `set_db_version("audio", 0)`
a set has been performed for the schema name, yet `get_db_version`
still raises (the `assert result[0] > 0` fails), so "raises if and only
if no set was performed" does not hold for non-positive versions. -/
theorem get_db_version_error_despite_set :
    (("audio", (0 : Int)) ∈ [("audio", (0 : Int))]) ∧
    get_db_version (applyVersionSets [("audio", (0 : Int))]) "audio" =
      .error .assertPositiveFailed :=
  ⟨List.mem_cons_self _ _, rfl⟩

/-- C9 amended: provided every version set is positive,
`get_db_version(s)` raises an error if and only if no `set_db_version(s, v)`
was performed for `s`; after sets, it returns the most recently set value;
and an empty search result is a plain empty list, not an error. -/
theorem get_db_version_contract (history : List (String × Int)) (s : String)
    (hpos : ∀ p ∈ history, 0 < p.2) :
    ((∃ e, get_db_version (applyVersionSets history) s = .error e) ↔
      ∀ p ∈ history, p.1 ≠ s) ∧
    (∀ v, lastSetValue history s = some v →
      get_db_version (applyVersionSets history) s = .ok v) ∧
    (∀ db w, (∀ r ∈ db.headwords, r.headword ≠ w) → search_files db w = []) := by
  have hfind := findVersion_foldl s history []
  have hok : ∀ v, lastSetValue history s = some v →
      get_db_version (applyVersionSets history) s = .ok v := by
    intro v hv
    have hmem := lastSetValue_mem history s v hv
    have hvpos : 0 < v := hpos (s, v) hmem
    rw [hv] at hfind
    rw [get_db_version, applyVersionSets] at *
    rw [hfind]
    simp only [if_pos hvpos]
  refine ⟨⟨?_, ?_⟩, hok, ?_⟩
  · intro ⟨e, he⟩
    by_contra hnall
    have hne : lastSetValue history s ≠ none := by
      intro hn
      exact hnall ((lastSetValue_eq_none history s).mp hn)
    rcases Option.ne_none_iff_exists.mp hne with ⟨v, hv⟩
    rw [hok v hv.symm] at he
    exact absurd he (by simp)
  · intro hall
    have hnone : lastSetValue history s = none :=
      (lastSetValue_eq_none history s).mpr hall
    rw [hnone] at hfind
    refine ⟨.versionNotSet, ?_⟩
    rw [get_db_version, applyVersionSets] at *
    rw [hfind]
    rfl
  · intro db w hw
    rw [search_files]
    have : (db.headwords.filter fun r => decide (r.headword = w)) = [] := by
      rw [List.filter_eq_nil_iff]
      intro r hr
      simpa using hw r hr
    rw [this]
    rfl

/-- Witness for C9 at a one-element history of positive sets. -/
theorem get_db_version_contract_witness :
    (∀ p ∈ [("audio", (3 : Int))], 0 < p.2) ∧
    get_db_version (applyVersionSets [("audio", (3 : Int))]) "audio" = .ok 3 :=
  ⟨by decide,
    (get_db_version_contract [("audio", (3 : Int))] "audio" (by decide)).2.1 3 rfl⟩

/-- C8: the exact pass performs three lookups — the surface text, its
hiragana transliteration and its katakana transliteration, in that order —
and returns the union (concatenation) of all three result lists; a lookup
that yields results does not short-circuit the remaining lookups: an
element of any of the three lists is in the output, and the output length
is the sum of the three lengths. -/
theorem search_word_variants_three_lookups (env : AudioSearchEnv) (src_text : String) :
    searchWordVariantsQueries env src_text =
      [src_text, env.toHiragana src_text, env.toKatakana src_text] ∧
    search_word_variants env src_text =
      env.searchWord src_text ++ env.searchWord (env.toHiragana src_text) ++
        env.searchWord (env.toKatakana src_text) ∧
    (∀ x, x ∈ search_word_variants env src_text ↔
      (x ∈ env.searchWord src_text ∨ x ∈ env.searchWord (env.toHiragana src_text) ∨
        x ∈ env.searchWord (env.toKatakana src_text))) ∧
    (search_word_variants env src_text).length =
      (env.searchWord src_text).length +
        (env.searchWord (env.toHiragana src_text)).length +
        (env.searchWord (env.toKatakana src_text)).length := by
  refine ⟨rfl, ?_, ?_, ?_⟩
  · simp [search_word_variants, searchWordVariantsQueries]
  · intro x
    simp [search_word_variants, searchWordVariantsQueries]
  · simp [search_word_variants, searchWordVariantsQueries]
    omega

/-- C10: for every input string that is empty or consists only of
whitespace (so that stripping leaves it empty), `ForvoClient.word` and
`ForvoClient.search` return the empty list and perform zero HTTP
requests. -/
theorem forvo_blank_input_no_request (env : ForvoEnv) (word : String)
    (h : word.data.all isPyWhitespace = true) :
    forvo_word env word = ([], 0) ∧ forvo_search env word = ([], 0) := by
  have hdrop : word.data.dropWhile isPyWhitespace = [] := by
    rw [List.dropWhile_eq_nil_iff]
    intro x hx
    exact List.all_eq_true.mp h x hx
  have hstrip : pyStrip word = "" := by
    rw [pyStrip, hdrop]
    rfl
  rw [forvo_word, forvo_search]
  rw [hstrip]
  exact ⟨rfl, rfl⟩

/-- Witness for C10 on a whitespace-only input. -/
theorem forvo_blank_input_no_request_witness :
    " \t ".data.all isPyWhitespace = true ∧
    forvo_word ⟨fun _ => [], fun _ => []⟩ " \t " = ([], 0) := by
  refine ⟨by decide, ?_⟩
  exact (forvo_blank_input_no_request ⟨fun _ => [], fun _ => []⟩ " \t " (by decide)).1

theorem getWithRetryAux_le (oracle : Nat → AttemptOutcome) :
    ∀ (fuel i : Nat), (getWithRetryAux oracle i fuel).2 ≤ i + fuel + 1
  | 0, i => by
    cases h : oracle i <;> simp [getWithRetryAux, h]
  | fuel + 1, i => by
    cases h : oracle i
    · simp only [getWithRetryAux, h]
      have := getWithRetryAux_le oracle fuel (i + 1)
      omega
    · simp [getWithRetryAux, h]
    · simp [getWithRetryAux, h]

theorem getWithRetryAux_ge (oracle : Nat → AttemptOutcome) :
    ∀ (fuel i : Nat), i + 1 ≤ (getWithRetryAux oracle i fuel).2
  | 0, i => by
    cases h : oracle i <;> simp [getWithRetryAux, h]
  | fuel + 1, i => by
    cases h : oracle i
    · simp only [getWithRetryAux, h]
      have := getWithRetryAux_ge oracle fuel (i + 1)
      omega
    · simp [getWithRetryAux, h]
    · simp [getWithRetryAux, h]

theorem getWithRetryAux_timeouts (oracle : Nat → AttemptOutcome) :
    ∀ (fuel i j : Nat), i ≤ j → j + 1 < (getWithRetryAux oracle i fuel).2 →
      oracle j = .timeout
  | 0, i, j, hij, hj => by
    exfalso
    cases h : oracle i <;> simp [getWithRetryAux, h] at hj <;> omega
  | fuel + 1, i, j, hij, hj => by
    cases h : oracle i
    · rcases Nat.eq_or_lt_of_le hij with rfl | hlt
      · exact h
      · rw [getWithRetryAux, h] at hj
        exact getWithRetryAux_timeouts oracle fuel (i + 1) j hlt hj
    · exfalso
      rw [getWithRetryAux, h] at hj
      simp at hj
      omega
    · exfalso
      rw [getWithRetryAux, h] at hj
      simp at hj
      omega

/-- C5: a single download performs at most `clamp(0, attempts - 1, 99) + 1`
attempts; every attempt before the last one ended in a timeout (only
timeouts are retried); a non-timeout transport error on an attempt fails
immediately — shown for the first attempt: one attempt total, raising an
`AudioManagerException` carrying the file reference and the exception —
and a response whose status is not 2xx (hence not `requests.codes.ok`)
fails immediately, raising an `AudioManagerException` carrying the file
reference and the response. -/
theorem download_retry_policy {φ : Type} (oracle : Nat → AttemptOutcome) (file : φ)
    (attempts : Int) :
    ((download oracle file attempts).2 ≤ (clamp 0 (attempts - 1) 99).toNat + 1) ∧
    (∀ j, j + 1 < (download oracle file attempts).2 → oracle j = .timeout) ∧
    (oracle 0 = .oserror →
      (download oracle file attempts).2 = 1 ∧
        (download oracle file attempts).1 = .error ⟨file, none, some .oserror⟩) ∧
    (∀ s, oracle 0 = .response s → ¬(200 ≤ s ∧ s < 300) →
      (download oracle file attempts).2 = 1 ∧
        (download oracle file attempts).1 = .error ⟨file, some s, none⟩) := by
  have hn : (download oracle file attempts).2 = (get_with_retry oracle attempts).2 := by
    rw [download]
    rcases hr : get_with_retry oracle attempts with ⟨res, n⟩
    cases res with
    | raised e => rfl
    | returned s =>
      by_cases hs : s ≠ 200
      · simp [hs]
      · simp [hs]
  have hfirst : ∀ fuel, oracle 0 ≠ .timeout →
      getWithRetryAux oracle 0 fuel =
        (match oracle 0 with
          | .timeout => (.raised .timeout, 1)
          | .oserror => (.raised .oserror, 1)
          | .response s => (.returned s, 1)) := by
    intro fuel hne
    cases fuel with
    | zero => rw [getWithRetryAux]
    | succ fuel =>
      cases h : oracle 0 with
      | timeout => exact absurd h hne
      | oserror => rw [getWithRetryAux, h]
      | response s => rw [getWithRetryAux, h]
  refine ⟨?_, ?_, ?_, ?_⟩
  · rw [hn, get_with_retry]
    have := getWithRetryAux_le oracle (clamp 0 (attempts - 1) 99).toNat 0
    omega
  · intro j hj
    rw [hn] at hj
    exact getWithRetryAux_timeouts oracle _ 0 j (Nat.zero_le j) hj
  · intro h0
    have hgr : get_with_retry oracle attempts = (.raised .oserror, 1) := by
      rw [get_with_retry, hfirst _ (by rw [h0]; intro hc; cases hc), h0]
    constructor
    · rw [hn, hgr]
    · rw [download, hgr]
  · intro s h0 hs
    have hne : s ≠ 200 := by omega
    have hgr : get_with_retry oracle attempts = (.returned s, 1) := by
      rw [get_with_retry, hfirst _ (by rw [h0]; intro hc; cases hc), h0]
    constructor
    · rw [hn, hgr]
    · rw [download, hgr]
      simp [hne]

/-- Witness for C5: a 404 on the first attempt fails after exactly one
attempt, carrying the file reference and the response. -/
theorem download_retry_policy_witness :
    ((fun _ => AttemptOutcome.response 404) 0 = AttemptOutcome.response 404) ∧
    ¬(200 ≤ 404 ∧ 404 < 300) ∧
    (download (fun _ => AttemptOutcome.response 404) "f.mp3" 5).2 = 1 ∧
    (download (fun _ => AttemptOutcome.response 404) "f.mp3" 5).1 =
      .error ⟨"f.mp3", some 404, none⟩ := by
  refine ⟨rfl, by omega, ?_⟩
  exact (download_retry_policy (fun _ => AttemptOutcome.response 404) "f.mp3" 5).2.2.2
    404 rfl (by omega)

/-- Counterexample to C6 as stated: an HTTP 503 status triggers a retry
in the Forvo session (its `Retry` forcelists 403, 429, 500, 502, 503,
504) but not in `AjtHttpClient.get_with_retry` (which retries only on
`requests.Timeout`), so the retry-triggering conditions are not identical
even with equal budgets (`clamp(2, 5, 33) = clamp(0, 6 - 1, 99) = 5`). -/
theorem forvo_ajt_retry_policy_counterexample :
    triggersRetry (forvoSessionPolicy 5) (.status 503) = true ∧
    triggersRetry (ajtRetryPolicy 6) (.status 503) = false ∧
    forvoSessionPolicy 5 ≠ ajtRetryPolicy 6 := by
  refine ⟨rfl, rfl, ?_⟩
  intro h
  have := congrArg RetryPolicy.status_forcelist h
  simp [forvoSessionPolicy, ajtRetryPolicy] at this

/-- C6 amended: word mode and search mode apply one and the same
retry/backoff policy (both GET through the session built by
`create_session`), but that policy is not the Fetch Pipeline's
single-request policy: it retries strictly more conditions (also
connection errors and the statuses 403, 429, 500, 502, 503, 504, with
backoff factor 1), and its budget is `clamp(2, retry_attempts, 33)`
while `get_with_retry` retries `clamp(0, attempts - 1, 99)` times on
timeout only. -/
theorem forvo_retry_policy_contract (retry_attempts attempts : Int) :
    forvoWordModePolicy retry_attempts = forvoSearchModePolicy retry_attempts ∧
    triggersRetry (forvoWordModePolicy retry_attempts) (.status 503) = true ∧
    triggersRetry (ajtRetryPolicy attempts) (.status 503) = false ∧
    (∀ c, triggersRetry (ajtRetryPolicy attempts) c = true →
      triggersRetry (forvoWordModePolicy retry_attempts) c = true) ∧
    (forvoWordModePolicy retry_attempts).retry_budget = clamp 2 retry_attempts 33 ∧
    (ajtRetryPolicy attempts).retry_budget = clamp 0 (attempts - 1) 99 ∧
    forvoWordModePolicy retry_attempts ≠ ajtRetryPolicy attempts := by
  refine ⟨rfl, rfl, rfl, ?_, rfl, rfl, ?_⟩
  · intro c hc
    cases c with
    | timeout => rfl
    | connectionError => simp [triggersRetry, ajtRetryPolicy] at hc
    | status code => simp [triggersRetry, ajtRetryPolicy] at hc
  · intro h
    have := congrArg RetryPolicy.backoff_factor h
    simp [forvoWordModePolicy, forvoSessionPolicy, ajtRetryPolicy] at this

theorem sorted_unique_spec (env : AudioSearchEnv) (l : List FileUrlData) :
    (sorted_files env (ensure_unique_files l)).Pairwise
      (fun a b => uniqueKey a ≠ uniqueKey b) ∧
    (sorted_files env (ensure_unique_files l)).Pairwise
      (fun a b => fileLe env a b = true) ∧
    (∀ x ∈ sorted_files env (ensure_unique_files l),
      l.find? (fun y => decide (uniqueKey y = uniqueKey x)) = some x) ∧
    (∀ x ∈ l, ∃ y ∈ sorted_files env (ensure_unique_files l),
      uniqueKey y = uniqueKey x) := by
  have hperm : (sorted_files env (ensure_unique_files l)).Perm (ensure_unique_files l) :=
    sortBy_perm _ _
  refine ⟨?_, ?_, ?_, ?_⟩
  · have hpw := dedupByFirst_pairwise uniqueKey l
    exact (hperm.pairwise_iff fun hab => Ne.symm hab).mpr hpw
  · exact @sortBy_sorted FileUrlData (fileLe env)
      (fun x y => keyLe_total (fileSortKey env x) (fileSortKey env y))
      (fun x y z h1 h2 => keyLe_trans h1 h2)
      (dedupByFirst uniqueKey l)
  · intro x hx
    exact dedupByFirst_first uniqueKey l x (hperm.subset hx)
  · intro x hx
    rcases dedupByFirst_covers uniqueKey l x hx with ⟨y, hy, hk⟩
    exact ⟨y, hperm.mem_iff.mpr hy, hk⟩

/-- C2 amended: the list returned by `search_audio` contains no two
elements that agree on the `(filename, source, reading, pitch)` key — the
kept element of each key is the first occurrence of that key in the
flattened hit list — and is sorted ascending by
`(canonical reading, pitch number)`; every flattened hit's key is
represented.  (Two sources listing an identical `(filename, reading,
pitch)` triple differ in the `source` component of the key, so both hits
are kept; see the counterexample.) -/
theorem search_audio_dedup_sorted (env : AudioSearchEnv) (src_text : String)
    (split_morphemes ignore_inflections stop_if_one_source_has_results : Bool) :
    (search_audio env src_text split_morphemes ignore_inflections
        stop_if_one_source_has_results).Pairwise
      (fun a b => uniqueKey a ≠ uniqueKey b) ∧
    (search_audio env src_text split_morphemes ignore_inflections
        stop_if_one_source_has_results).Pairwise
      (fun a b => fileLe env a b = true) ∧
    (∀ x ∈ search_audio env src_text split_morphemes ignore_inflections
        stop_if_one_source_has_results,
      (searchAudioFlat env src_text split_morphemes ignore_inflections
          stop_if_one_source_has_results).find?
        (fun y => decide (uniqueKey y = uniqueKey x)) = some x) ∧
    (∀ x ∈ searchAudioFlat env src_text split_morphemes ignore_inflections
        stop_if_one_source_has_results,
      ∃ y ∈ search_audio env src_text split_morphemes ignore_inflections
        stop_if_one_source_has_results, uniqueKey y = uniqueKey x) :=
  sorted_unique_spec env
    (searchAudioFlat env src_text split_morphemes ignore_inflections
      stop_if_one_source_has_results)

/-- Counterexample to C2's "in particular" clause: two sources listing an
identical `(filename, reading, pitch)` triple for a word yield two hits
in the final output, not one, because the deduplication key includes the
source. -/
theorem search_audio_cross_source_counterexample :
    hitSourceA.desired_filename = hitSourceB.desired_filename ∧
    hitSourceA.reading = hitSourceB.reading ∧
    hitSourceA.pitch_number = hitSourceB.pitch_number ∧
    hitSourceA.source_name ≠ hitSourceB.source_name ∧
    hitSourceA ∈ search_audio twoSourceEnv "w" false false false ∧
    hitSourceB ∈ search_audio twoSourceEnv "w" false false false ∧
    (search_audio twoSourceEnv "w" false false false).length = 2 := by
  decide

/-- Witness for C2: the kept occurrence of `hitSourceA` is its first
occurrence in the flattened hit list. -/
theorem search_audio_dedup_sorted_witness :
    (searchAudioFlat twoSourceEnv "w" false false false).find?
      (fun y => decide (uniqueKey y = uniqueKey hitSourceA)) = some hitSourceA :=
  (search_audio_dedup_sorted twoSourceEnv "w" false false false).2.2.1 hitSourceA
    (by decide)

/-- Witness for C6: a condition the single-request policy retries is also
retried by the Forvo session policy. -/
theorem forvo_retry_policy_contract_witness :
    triggersRetry (forvoWordModePolicy 5) .timeout = true :=
  (forvo_retry_policy_contract 5 5).2.2.2.1 .timeout (by decide)
